import Mathlib

/-!
# Verification of the email-mcp core services

Shallow embedding of the core of the `email-mcp` repository:

* `src/services/hooks.service.ts` — `HooksService` (triage engine): batching,
  triage response parsing and sanitization, rate limiting, fallback.
* `src/services/event-bus.ts` — `EmailEventBus` (a Node `EventEmitter`
  subclass) and `NotifierService` (multi-channel alert dispatcher).
* `src/services/watcher.service.ts` — `WatcherService` (IMAP IDLE watcher):
  last-seen-uid tracking, reconnect backoff.

JavaScript values produced by `JSON.parse` are modelled by the `Json`
inductive; `undefined` property access is modelled by `Option`.  Strings are
Lean `String`s, with `String.prototype.slice(0, n)` modelled by `jsSlice`.
Asynchronous calls that can fail are modelled by `Except` parameters, and
timer-driven state mutation by explicit step functions on state records.
-/

namespace EmailMcp

/-- A JavaScript value as produced by `JSON.parse`. -/
inductive Json where
  | null
  | bool (b : Bool)
  | num (n : Int)
  | str (s : String)
  | arr (elems : List Json)
  | obj (fields : List (String × Json))

/-- Property lookup on a parsed object, first match wins (JS objects cannot
have duplicate keys).  Accessing a property of a non-object (or a missing
property) yields `none`, modelling JS `undefined`. -/
def fieldsLookup : List (String × Json) → String → Option Json
  | [], _ => none
  | (k, v) :: rest, key => if key = k then some v else fieldsLookup rest key

/-- `obj.key` property access (JS arrays are objects too, but never carry the
four triage property names, so reading those off an array yields
`undefined` = `none`, exactly as here). -/
def Json.getField : Json → String → Option Json
  | .obj fields, key => fieldsLookup fields key
  | _, _ => none

/-- `String.prototype.slice(0, n)`. -/
def jsSlice (s : String) (n : Nat) : String :=
  ⟨s.data.take n⟩

/-- The four urgency levels of `hooks.service.ts` / `event-bus.ts`. -/
inductive Priority where
  | urgent
  | high
  | normal
  | low
deriving DecidableEq, Repr

/-- The string form of a priority, as it appears in JSON. -/
def Priority.toJs : Priority → String
  | .urgent => "urgent"
  | .high => "high"
  | .normal => "normal"
  | .low => "low"

/-- `['urgent', 'high', 'normal', 'low'].includes(s)`, returning the matching
level (`includes` uses strict equality, so only exact strings match). -/
def priorityOfString (s : String) : Option Priority :=
  if s = "urgent" then some .urgent
  else if s = "high" then some .high
  else if s = "normal" then some .normal
  else if s = "low" then some .low
  else none

/-- `interface TriageResult` of `hooks.service.ts`: all four fields optional,
`none` modelling an absent / `undefined` field. -/
structure TriageResult where
  priority : Option Priority := none
  labels : Option (List String) := none
  flag : Option Bool := none
  action : Option String := none
deriving DecidableEq, Repr

/-- The empty triage result `{}`. -/
def TriageResult.empty : TriageResult := {}

/-- `typeof l === 'string'` filter step used on raw label arrays. -/
def jsonAsString : Json → Option String
  | .str s => some s
  | _ => none

/-- `HooksService.sanitizeTriageResult` (hooks.service.ts:300-313): a
non-object (`typeof raw !== 'object' || raw === null`) yields `{}`; otherwise
`priority` is kept only when it is one of the four known level strings,
`labels` only when an array (filtered to strings, capped at 5), `flag` only
when a boolean, `action` only when a string (truncated to 200).  A JS array
is an object whose four triage properties read as `undefined`, hence also
yields `{}` — `Json.getField` returns `none` on arrays accordingly. -/
def sanitizeTriageResult (raw : Json) : TriageResult :=
  match raw with
  | .obj fields =>
      { priority :=
          match Json.getField (.obj fields) "priority" with
          | some (.str s) => priorityOfString s
          | _ => none
        labels :=
          match Json.getField (.obj fields) "labels" with
          | some (.arr xs) => some ((xs.filterMap jsonAsString).take 5)
          | _ => none
        flag :=
          match Json.getField (.obj fields) "flag" with
          | some (.bool b) => some b
          | _ => none
        action :=
          match Json.getField (.obj fields) "action" with
          | some (.str s) => some (jsSlice s 200)
          | _ => none }
  | _ => {}

/-- The JS object returned by `sanitizeTriageResult`, viewed again as a raw
value (a field whose value is `undefined` is indistinguishable from an absent
field under property access, so `none` fields are omitted). -/
def TriageResult.toRaw (t : TriageResult) : Json :=
  .obj
    ((match t.priority with
      | some p => [("priority", Json.str p.toJs)]
      | none => []) ++
     (match t.labels with
      | some ls => [("labels", Json.arr (ls.map Json.str))]
      | none => []) ++
     (match t.flag with
      | some b => [("flag", Json.bool b)]
      | none => []) ++
     (match t.action with
      | some a => [("action", Json.str a)]
      | none => []))

/-- The bounds the spec demands of sanitized results (priority being one of
the four levels and flag being a boolean hold by the type of
`TriageResult`). -/
def TriageResult.Valid (t : TriageResult) : Prop :=
  (∀ ls, t.labels = some ls → ls.length ≤ 5) ∧
  (∀ a, t.action = some a → a.length ≤ 200)

/-- `HooksService.parseTriageResponse` (hooks.service.ts:283-298), modelled
on the result of `JSON.parse` applied to the fence-stripped response text:
`parsed = none` models any text on which `JSON.parse` throws (garbage, the
empty string); `some v` models a successful parse.  A parsed array is
truncated to `expectedCount` and sanitized element-wise; a parsed non-array
object yields a single sanitized result; anything else yields `expectedCount`
empty results. -/
def parseTriageResponse (parsed : Option Json) (expectedCount : Nat) :
    List TriageResult :=
  match parsed with
  | some (.arr xs) => (xs.take expectedCount).map sanitizeTriageResult
  | some (.obj fields) => [sanitizeTriageResult (.obj fields)]
  | _ => List.replicate expectedCount {}

/-! ## HooksService (triage engine) -/

/-- The fields of `EmailMeta` that the hooks service reads. -/
structure EmailMeta where
  id : String
  subject : String
  fromAddress : String
deriving DecidableEq, Repr

/-- `interface BatchEmail` of hooks.service.ts. -/
structure BatchEmail where
  account : String
  mailbox : String
  meta : EmailMeta
deriving DecidableEq, Repr

/-- `interface NewEmailEvent` of event-bus.ts. -/
structure NewEmailEvent where
  account : String
  mailbox : String
  emails : List EmailMeta
deriving DecidableEq, Repr

/-- `event.emails.map(meta => ({account, mailbox, meta}))` in `onNewEmail`. -/
def NewEmailEvent.toBatchEmails (ev : NewEmailEvent) : List BatchEmail :=
  ev.emails.map (fun meta => ⟨ev.account, ev.mailbox, meta⟩)

/-- `hooks.onNewEmail` mode: `'none' | 'notify' | 'triage'`. -/
inductive HookMode where
  | off
  | notify
  | triage
deriving DecidableEq, Repr

/-- The parts of `HooksConfig` the hooks service reads. -/
structure HooksConfig where
  onNewEmail : HookMode
  batchDelay : Nat
  autoLabel : Bool
  autoFlag : Bool
deriving DecidableEq, Repr

/-- The mutable batching state of a `HooksService` instance:
`pendingEmails` and whether `batchTimer` is non-null. -/
structure HooksState where
  pendingEmails : List BatchEmail
  batchTimerSet : Bool
deriving DecidableEq, Repr

/-- `HooksService.onNewEmail` (hooks.service.ts:106-117): append the event's
messages to the pending batch; `this.batchTimer ??= setTimeout(...)` arms the
flush timer only if not already armed, so afterwards it is armed either
way. -/
def onNewEmail (st : HooksState) (ev : NewEmailEvent) : HooksState :=
  { pendingEmails := st.pendingEmails ++ ev.toBatchEmails
    batchTimerSet := true }

/-- The synchronous prefix of `HooksService.flushBatch`
(hooks.service.ts:119-122): `this.batchTimer = null`, snapshot the pending
batch, clear it.  All of this happens before the first `await`. -/
def flushTake (st : HooksState) : HooksState × List BatchEmail :=
  ({ pendingEmails := [], batchTimerSet := false }, st.pendingEmails)

/-- Observable effects of the hooks service, in program order. -/
inductive HookAction where
  | log (level : String) (message : String)
  | resourceUpdated (uri : String)
  | aiCall
  | addLabel (account : String) (mailbox : String) (id : String) (label : String)
  | setFlag (account : String) (mailbox : String) (id : String)
deriving DecidableEq, Repr

/-- Whether an action mutates the mail store (label or flag mutation). -/
def HookAction.isMutation : HookAction → Bool
  | .addLabel _ _ _ _ => true
  | .setFlag _ _ _ => true
  | _ => false

/-- Whether an action is a log line. -/
def HookAction.isLog : HookAction → Bool
  | .log _ _ => true
  | _ => false

/-- `[...new Set(xs)]`: deduplication keeping the first occurrence of each
element, in order (JS `Set` preserves insertion order). -/
def dedupFirst (l : List String) : List String :=
  l.foldl (fun acc a => if acc.contains a then acc else acc ++ [a]) []

/-- `HooksService.sendResourceUpdates` (hooks.service.ts:138-149): two
resource-updated notifications per distinct account touched (each wrapped in
`.catch(() => {})`, so failures are ignored). -/
def sendResourceUpdates (emails : List BatchEmail) : List HookAction :=
  (dedupFirst (emails.map (·.account))).map
    (fun account =>
      [HookAction.resourceUpdated ("email://" ++ account ++ "/unread"),
       HookAction.resourceUpdated ("email://" ++ account ++ "/mailboxes")])
  |>.flatten

/-- `HooksService.notifyBatch` (hooks.service.ts:155-161): one info log line
per batched email. -/
def notifyBatch (emails : List BatchEmail) : List HookAction :=
  emails.map (fun e =>
    HookAction.log "info"
      ("📬 New email in " ++ e.account ++ "/" ++ e.mailbox ++ ": \"" ++
        e.meta.subject ++ "\" from " ++ e.meta.fromAddress))

/-- `HooksService.applySingleTriage` (hooks.service.ts:241-277): attempted
label mutations when auto-label is on and labels are present, attempted flag
mutation when auto-flag is on and the flag is requested, then the summary log
line and the optional action log line.  Individual mutation failures are
caught and logged, never blocking the rest. -/
def applySingleTriage (cfg : HooksConfig) (email : BatchEmail)
    (triage : TriageResult) : List HookAction :=
  (match triage.labels with
   | some ls =>
       if cfg.autoLabel ∧ ls.length ≠ 0 then
         ls.map (fun label =>
           HookAction.addLabel email.account email.mailbox email.meta.id label)
       else []
   | none => []) ++
  (if cfg.autoFlag ∧ triage.flag = some true then
     [HookAction.setFlag email.account email.mailbox email.meta.id]
   else []) ++
  [HookAction.log "info"
    ("📬 [" ++ (triage.priority.getD .normal).toJs ++ "] \"" ++
      email.meta.subject ++ "\" from " ++ email.meta.fromAddress)] ++
  (match triage.action with
   | some a => [HookAction.log "info" ("   Action: " ++ a)]
   | none => [])

/-- `HooksService.applyTriageResults` (hooks.service.ts:236-239):
`results[i] ?? {}` pads a short result list with empty results. -/
def applyTriageResults (cfg : HooksConfig) (emails : List BatchEmail)
    (results : List TriageResult) : List HookAction :=
  (emails.enum.map
    (fun p => applySingleTriage cfg p.2 (results.getD p.1 {}))).flatten

/-- `MAX_SAMPLING_PER_MIN` (hooks.service.ts:56). -/
def MAX_SAMPLING_PER_MIN : Nat := 10

/-- `HooksService.triageBatch` (hooks.service.ts:167-203).  The AI call is
modelled by `aiOutcome`: `.error msg` is a rejected `createMessage` (or
missing server), `.ok parsed` a successful call whose extracted text parses
to `parsed` (`none` when `JSON.parse` fails on it).  Returns the new value of
`rateCounter` and the actions performed.  When the per-minute counter is
exhausted the service logs the fallback and plain-notifies; otherwise it
increments the counter and performs the call. -/
def triageBatch (cfg : HooksConfig) (rateCounter : Nat)
    (emails : List BatchEmail) (aiOutcome : Except String (Option Json)) :
    Nat × List HookAction :=
  if MAX_SAMPLING_PER_MIN ≤ rateCounter then
    (rateCounter,
      HookAction.log "warning"
        "Sampling rate limit reached — falling back to notify" ::
        notifyBatch emails)
  else
    match aiOutcome with
    | .error msg =>
        (rateCounter + 1,
          HookAction.aiCall ::
            HookAction.log "warning"
              ("Sampling failed: " ++ msg ++ " — falling back to notify") ::
            notifyBatch emails)
    | .ok parsed =>
        (rateCounter + 1,
          HookAction.aiCall ::
            applyTriageResults cfg emails
              (parseTriageResponse parsed emails.length))

/-- `HooksService.flushBatch` (hooks.service.ts:119-132): clear the timer and
swap out the batch synchronously, then — only if the snapshot is non-empty —
run the asynchronous work (resource updates, then triage or plain
notification depending on mode and negotiated sampling capability). -/
def flushBatch (cfg : HooksConfig) (samplingSupported : Bool)
    (rateCounter : Nat) (aiOutcome : Except String (Option Json))
    (st : HooksState) : HooksState × Nat × List HookAction :=
  let taken := flushTake st
  let batch := taken.2
  if batch.isEmpty then (taken.1, rateCounter, [])
  else if cfg.onNewEmail = HookMode.triage ∧ samplingSupported then
    let r := triageBatch cfg rateCounter batch aiOutcome
    (taken.1, r.1, sendResourceUpdates batch ++ r.2)
  else
    (taken.1, rateCounter, sendResourceUpdates batch ++ notifyBatch batch)

/-! ## EmailEventBus -/

/-- The two event kinds of `EmailEventMap` (event-bus.ts:31-34). -/
inductive EventKind where
  | emailNew
  | emailExpunge
deriving DecidableEq, Repr

/-- A listener registration on the singleton bus: which component registered
it and for which event kind. -/
structure Registration where
  owner : String
  kind : EventKind
deriving DecidableEq, Repr

/-- `eventBus.removeAllListeners('email:new')`: Node's `EventEmitter`
removes every listener registered for that event name, regardless of who
registered it. -/
def removeAllListeners (regs : List Registration) (k : EventKind) :
    List Registration :=
  regs.filter (fun r => r.kind ≠ k)

/-- `HooksService.stop` (hooks.service.ts:89-100): cancel the flush timer,
discard the pending batch, and call `removeAllListeners('email:new')` on the
process-wide bus. -/
def hooksStop (_st : HooksState) (bus : List Registration) :
    HooksState × List Registration :=
  ({ pendingEmails := [], batchTimerSet := false },
    removeAllListeners bus EventKind.emailNew)

/-- What a listener does when invoked (Node `EventEmitter` listeners are
plain synchronous functions; ours either return or throw). -/
inductive ListenerBehavior where
  | ok
  | throws (msg : String)
deriving DecidableEq, Repr

/-- A registered listener for one event kind, in registration order inside
the emitter's listener array. -/
structure Listener where
  id : Nat
  behavior : ListenerBehavior
deriving DecidableEq, Repr

/-- Node `EventEmitter.emit` semantics, inherited unchanged by
`EmailEventBus` (event-bus.ts:40): call each listener synchronously in
registration order; if a listener throws, the exception propagates out of
`emit` and the remaining listeners are not called.  Returns the ids of the
listeners that were invoked and the propagated exception, if any. -/
def emitRun : List Listener → List Nat × Option String
  | [] => ([], none)
  | l :: rest =>
      match l.behavior with
      | .ok =>
          let r := emitRun rest
          (l.id :: r.1, r.2)
      | .throws msg => ([l.id], some msg)

/-! ## NotifierService -/

/-- `URGENCY_ORDER` (event-bus.ts:81-86). -/
def URGENCY_ORDER : Priority → Nat
  | .urgent => 4
  | .high => 3
  | .normal => 2
  | .low => 1

/-- MCP log severities used by the notifier. -/
inductive LogLevel where
  | alert
  | warning
  | info
  | debug
deriving DecidableEq, Repr

/-- `MCP_LOG_LEVEL_MAP` (event-bus.ts:88-93). -/
def MCP_LOG_LEVEL_MAP : Priority → LogLevel
  | .urgent => .alert
  | .high => .warning
  | .normal => .info
  | .low => .debug

/-- The parts of `AlertsConfig` that `NotifierService` reads. -/
structure AlertsConfig where
  desktop : Bool
  sound : Bool
  urgencyThreshold : Priority
  webhookUrl : Option String
  webhookEvents : List Priority
deriving DecidableEq, Repr

/-- `AlertPayload` (event-bus.ts:68-75). -/
structure AlertPayload where
  account : String
  senderName : Option String
  senderAddress : String
  subject : String
  priority : Priority
  labels : Option (List String)
  ruleName : Option String
deriving DecidableEq, Repr

/-- `MAX_DESKTOP_PER_MIN` (event-bus.ts:118). -/
def MAX_DESKTOP_PER_MIN : Nat := 5

/-- What one `alert` call did: the severity it escalated to the protocol log,
whether a desktop notification was actually sent, whether the sound clause
was attached, and whether a webhook dispatch was started. -/
structure AlertOutcome where
  logLevel : LogLevel
  desktopSent : Bool
  soundPlayed : Bool
  webhookSent : Bool
deriving DecidableEq, Repr

/-- `NotifierService.sendDesktopNotification` (event-bus.ts:167-194): bail
out (without sending) once `desktopCount` has reached the per-minute cap,
otherwise increment the counter and issue the platform command, with the
sound clause only for urgent priority when sound is enabled.  Command
failures are swallowed.  Returns the new counter, whether a send happened,
and whether sound accompanied it. -/
def sendDesktopNotification (cfg : AlertsConfig) (desktopCount : Nat)
    (priority : Priority) : Nat × Bool × Bool :=
  if MAX_DESKTOP_PER_MIN ≤ desktopCount then (desktopCount, false, false)
  else (desktopCount + 1, true, cfg.sound && priority = Priority.urgent)

/-- `NotifierService.alert` (event-bus.ts:140-161), with `desktopCount` the
current per-minute counter.  The protocol log is always escalated at the
mapped severity; the desktop channel is entered iff desktop notifications
are enabled and (the priority meets the urgency threshold or the caller
forces it); the webhook fires iff a url is configured and the priority is in
the configured event filter. -/
def notifierAlert (cfg : AlertsConfig) (desktopCount : Nat)
    (payload : AlertPayload) (forceDesktop : Bool) : AlertOutcome × Nat :=
  let meetsThreshold :=
    URGENCY_ORDER cfg.urgencyThreshold ≤ URGENCY_ORDER payload.priority
  let logLevel := MCP_LOG_LEVEL_MAP payload.priority
  let webhookSent :=
    cfg.webhookUrl.isSome && cfg.webhookEvents.contains payload.priority
  if cfg.desktop && (meetsThreshold || forceDesktop) then
    let d := sendDesktopNotification cfg desktopCount payload.priority
    ({ logLevel := logLevel, desktopSent := d.2.1, soundPlayed := d.2.2,
       webhookSent := webhookSent }, d.1)
  else
    ({ logLevel := logLevel, desktopSent := false, soundPlayed := false,
       webhookSent := webhookSent }, desktopCount)

/-! ## WatcherService -/

/-- `INITIAL_BACKOFF_MS` (watcher.service.ts:59). -/
def INITIAL_BACKOFF_MS : Nat := 1000

/-- `MAX_BACKOFF_MS` (watcher.service.ts:58). -/
def MAX_BACKOFF_MS : Nat := 60000

/-- The per-target `IdleState` fields the claims are about
(watcher.service.ts:22-31); `connected` models `client !== null`. -/
structure IdleState where
  connected : Bool
  lastSeenUid : Nat
  backoffMs : Nat
  stopped : Bool
deriving DecidableEq, Repr

/-- Outcome of one `connectIdle` attempt: failure anywhere in
connect/authenticate/lock, or success with the selected mailbox's reported
`uidNext` (`none` when the mailbox object does not report one, in which case
the code falls back to `1`). -/
inductive ConnectOutcome where
  | failure
  | success (uidNext : Option Nat)
deriving DecidableEq, Repr

/-- `WatcherService.connectIdle` (watcher.service.ts:142-211) as a state
step: a stopped target returns immediately; a successful connect records the
client, sets `lastSeenUid = uidNext - 1` (with `uidNext = mailbox.uidNext ??
1`) and resets the backoff to its initial value; a failure leaves the state
for `scheduleReconnect`. -/
def connectIdleStep (st : IdleState) (outcome : ConnectOutcome) : IdleState :=
  if st.stopped then st
  else
    match outcome with
    | .failure => st
    | .success uidNext =>
        { st with
            connected := true
            lastSeenUid := uidNext.getD 1 - 1
            backoffMs := INITIAL_BACKOFF_MS }

/-- `WatcherService.scheduleReconnect` (watcher.service.ts:213-230) reads the
delay it waits from the target's current `backoffMs`. -/
def scheduleReconnectDelay (st : IdleState) : Nat :=
  st.backoffMs

/-- The body of the reconnect timer (watcher.service.ts:224-227): when it
fires, the stored backoff is doubled and capped before `connectIdle` is
retried. -/
def reconnectTimerFire (st : IdleState) : IdleState :=
  { st with backoffMs := min (st.backoffMs * 2) MAX_BACKOFF_MS }

/-- One full failed reconnect cycle: `scheduleReconnect` waits
`st.backoffMs`, the timer fires (doubling the stored backoff), and the retry
of `connectIdle` fails again.  Returns the delay that was waited and the
resulting state. -/
def failCycle (st : IdleState) : Nat × IdleState :=
  (scheduleReconnectDelay st, connectIdleStep (reconnectTimerFire st) .failure)

/-- The delay waited before the `n`-th retry in a run of consecutive
connection failures starting from state `st`. -/
def delaysFrom (st : IdleState) : Nat → Nat
  | 0 => scheduleReconnectDelay st
  | n + 1 => delaysFrom (failCycle st).2 n

/-- A message yielded by `client.fetch` in `handleNewEmails`; only its uid
drives the state update (the rest is projected into the summary by
`buildEmailMeta`). -/
structure FetchedMsg where
  uid : Nat
deriving DecidableEq, Repr

/-- `WatcherService.handleNewEmails` (watcher.service.ts:236-279), for a
target whose `lastSeenUid` is `lastSeenUid`: the fetch over
`lastSeenUid+1:*` either throws (`.error`, logged and swallowed — state
untouched) or yields a list of messages; summaries are built exactly for the
messages with `uid > lastSeenUid`, `maxUid` tracks the running maximum of
their uids, `lastSeenUid` is advanced to `maxUid` only when it grew, and one
event with the summaries is emitted iff at least one summary was built.
Returns the new `lastSeenUid` and the emitted event's messages, if any. -/
def handleNewEmails (lastSeenUid : Nat)
    (fetchResult : Except Unit (List FetchedMsg)) :
    Nat × Option (List FetchedMsg) :=
  match fetchResult with
  | .error _ => (lastSeenUid, none)
  | .ok msgs =>
      let emails := msgs.filter (fun m => lastSeenUid < m.uid)
      let maxUid := msgs.foldl
        (fun acc m => if lastSeenUid < m.uid then max acc m.uid else acc)
        lastSeenUid
      let newLast := if lastSeenUid < maxUid then maxUid else lastSeenUid
      (newLast, if 0 < emails.length then some emails else none)

/-! ## Helper lemmas -/

lemma priorityOfString_toJs (p : Priority) : priorityOfString p.toJs = some p := by
  cases p <;> rfl

lemma filterMap_jsonAsString_str (ls : List String) :
    ls.filterMap (jsonAsString ∘ Json.str) = ls := by
  induction ls with
  | nil => rfl
  | cons a l ih => simp [Function.comp, jsonAsString, ih]

lemma jsSlice_length_le (s : String) (n : Nat) : (jsSlice s n).length ≤ n := by
  show (s.data.take n).length ≤ n
  exact List.length_take_le n s.data

lemma jsSlice_of_length_le (s : String) (n : Nat) (h : s.length ≤ n) :
    jsSlice s n = s := by
  cases s with
  | mk data => exact congrArg String.mk (List.take_of_length_le h)

/-- Every output of `sanitizeTriageResult` satisfies the spec's bounds. -/
lemma sanitizeTriageResult_valid (raw : Json) :
    (sanitizeTriageResult raw).Valid := by
  cases raw with
  | obj fields =>
      constructor
      · intro ls h
        simp only [sanitizeTriageResult] at h
        split at h
        · cases h
          simp
        · cases h
      · intro a h
        simp only [sanitizeTriageResult] at h
        split at h
        · cases h
          exact jsSlice_length_le _ 200
        · cases h
  | null => simp [sanitizeTriageResult, TriageResult.Valid]
  | bool b => simp [sanitizeTriageResult, TriageResult.Valid]
  | num n => simp [sanitizeTriageResult, TriageResult.Valid]
  | str s => simp [sanitizeTriageResult, TriageResult.Valid]
  | arr xs => simp [sanitizeTriageResult, TriageResult.Valid]

/-- Re-sanitizing a bounded result (viewed again as a raw object) is the
identity. -/
lemma sanitizeTriageResult_toRaw (t : TriageResult) (h : t.Valid) :
    sanitizeTriageResult t.toRaw = t := by
  obtain ⟨p, ls, f, a⟩ := t
  obtain ⟨hl, ha⟩ := h
  have hls : ∀ l, ls = some l → List.take 5 l = l := fun l hh =>
    List.take_of_length_le (hl l hh)
  have has : ∀ s, a = some s → jsSlice s 200 = s := fun s hh =>
    jsSlice_of_length_le s 200 (ha s hh)
  rcases p with _ | p <;> rcases ls with _ | ls <;> rcases f with _ | f <;>
      rcases a with _ | a <;>
    simp [sanitizeTriageResult, TriageResult.toRaw, Json.getField, fieldsLookup,
      priorityOfString_toJs, filterMap_jsonAsString_str, hls, has]

/-! ## C9 — sanitizeTriageResult is idempotent and bounded -/

/-- **C9**: `sanitizeTriageResult` is idempotent — applying it to its own
output (viewed again as a raw JS value via `TriageResult.toRaw`) yields the
same value — and for every raw input the output satisfies: labels, when
present, has length at most 5 (every element a string by the type of
`TriageResult.labels`); action, when present, has length at most 200;
priority, when present, is one of the four levels and flag, when present, a
boolean (both by the type of `TriageResult`). -/
theorem sanitizeTriageResult_idempotent_bounded (raw : Json) :
    sanitizeTriageResult (TriageResult.toRaw (sanitizeTriageResult raw)) =
      sanitizeTriageResult raw ∧
    (∀ ls, (sanitizeTriageResult raw).labels = some ls → ls.length ≤ 5) ∧
    (∀ a, (sanitizeTriageResult raw).action = some a → a.length ≤ 200) :=
  ⟨sanitizeTriageResult_toRaw _ (sanitizeTriageResult_valid raw),
   (sanitizeTriageResult_valid raw).1, (sanitizeTriageResult_valid raw).2⟩

/-- Witness for C9 at a concrete raw object with six labels and an
over-long-free action: the labels hypothesis is discharged concretely. -/
theorem sanitizeTriageResult_idempotent_bounded_witness :
    (sanitizeTriageResult (Json.obj [("labels",
        Json.arr [Json.str "a", Json.str "b", Json.str "c", Json.str "d",
          Json.str "e", Json.str "f"])])).labels = some ["a", "b", "c", "d", "e"] ∧
    (["a", "b", "c", "d", "e"] : List String).length ≤ 5 :=
  ⟨by decide,
   (sanitizeTriageResult_idempotent_bounded (Json.obj [("labels",
        Json.arr [Json.str "a", Json.str "b", Json.str "c", Json.str "d",
          Json.str "e", Json.str "f"])])).2.1 ["a", "b", "c", "d", "e"]
     (by decide)⟩

/-! ## C1 — parseTriageResponse result count -/

/-- **C1** counterexample: the response text `"[]"` is a valid JSON array,
and for a one-message batch (`expectedCount = 1`) `parseTriageResponse`
returns the empty list — zero results, not `expectedCount` results: a
response array shorter than the batch is *not* padded inside
`parseTriageResponse`. -/
theorem parseTriageResponse_short_array_not_padded :
    parseTriageResponse (some (Json.arr [])) 1 = [] ∧
    (parseTriageResponse (some (Json.arr [])) 1).length ≠ 1 := by
  decide

/-- **C1** (amended): `parseTriageResponse` is total and every result it
returns is a valid (possibly empty) `TriageResult`, but the number of
results is `min expectedCount len` for a response that parses to a JSON
array of length `len` (the array is truncated to the batch size and short
arrays are not padded), exactly 1 for a response that parses to a non-array
JSON object (regardless of `expectedCount`), and exactly `expectedCount`
empty results whenever parsing fails (garbage text, empty string). -/
theorem parseTriageResponse_total_valid (parsed : Option Json) (n : Nat) :
    (∀ xs, parsed = some (Json.arr xs) →
      (parseTriageResponse parsed n).length = min n xs.length) ∧
    (∀ fields, parsed = some (Json.obj fields) →
      (parseTriageResponse parsed n).length = 1) ∧
    ((∀ xs, parsed ≠ some (Json.arr xs)) →
      (∀ fields, parsed ≠ some (Json.obj fields)) →
      parseTriageResponse parsed n = List.replicate n {}) ∧
    (∀ r ∈ parseTriageResponse parsed n, r.Valid) := by
  refine ⟨?_, ?_, ?_, ?_⟩
  · rintro xs rfl
    simp [parseTriageResponse]
  · rintro fields rfl
    simp [parseTriageResponse]
  · intro hxs hfields
    match parsed with
    | none => rfl
    | some .null => rfl
    | some (.bool b) => rfl
    | some (.num k) => rfl
    | some (.str s) => rfl
    | some (.arr xs) => exact absurd rfl (hxs xs)
    | some (.obj fields) => exact absurd rfl (hfields fields)
  · intro r hr
    match parsed with
    | some (.arr xs) =>
        simp only [parseTriageResponse, List.mem_map] at hr
        obtain ⟨x, _, rfl⟩ := hr
        exact sanitizeTriageResult_valid x
    | some (.obj fields) =>
        simp only [parseTriageResponse, List.mem_singleton] at hr
        subst hr
        exact sanitizeTriageResult_valid _
    | none | some .null | some (.bool _) | some (.num _) | some (.str _) =>
        have : r = {} := List.eq_of_mem_replicate hr
        subst this
        exact ⟨fun ls h => Option.noConfusion h, fun a h => Option.noConfusion h⟩

/-- Witness for C1 (amended) at a concrete one-element array with a
two-message batch: one result comes back, not two. -/
theorem parseTriageResponse_total_valid_witness :
    (parseTriageResponse (some (Json.arr [Json.null])) 2).length = min 2 1 :=
  (parseTriageResponse_total_valid (some (Json.arr [Json.null])) 2).1
    [Json.null] rfl

/-! ## C2 — EventBus emit delivery -/

/-- **C2** counterexample: with two registered subscribers of which the
first throws, `emit` (Node `EventEmitter` semantics, inherited unchanged by
`EmailEventBus`) invokes only the first — the second never receives the
event — and the exception propagates to the publisher, so it is false that
delivery reaches every registered subscriber with no propagation. -/
theorem emitRun_throwing_listener_blocks :
    emitRun [⟨0, .throws "boom"⟩, ⟨1, .ok⟩] = ([0], some "boom") ∧
    ¬(emitRun [⟨0, .throws "boom"⟩, ⟨1, .ok⟩] = ([0, 1], none)) := by
  decide

/-- **C2** (amended): `emit` delivers synchronously in registration order,
and when no subscriber throws it reaches every currently registered
subscriber with nothing propagated to the publisher; but a subscriber that
throws is the last one invoked — the remaining subscribers are skipped and
the exception propagates to the publisher (in the watcher it is then
swallowed by `handleNewEmails`' catch block). -/
theorem emitRun_registration_order (ls : List Listener) :
    ((∀ l ∈ ls, l.behavior = ListenerBehavior.ok) →
      emitRun ls = (ls.map Listener.id, none)) ∧
    (emitRun ls).1 <+: ls.map Listener.id ∧
    ((emitRun ls).2 = none → (emitRun ls).1 = ls.map Listener.id) ∧
    (∀ m, (emitRun ls).2 = some m →
      ∃ l ∈ ls, l.behavior = ListenerBehavior.throws m) := by
  induction ls with
  | nil =>
      exact ⟨fun _ => rfl, List.nil_prefix, fun _ => rfl, fun m h => by cases h⟩
  | cons l rest ih =>
      obtain ⟨ih1, ih2, ih3, ih4⟩ := ih
      cases hb : l.behavior with
      | ok =>
          refine ⟨?_, ?_, ?_, ?_⟩
          · intro hall
            have := ih1 (fun x hx => hall x (List.mem_cons_of_mem _ hx))
            simp [emitRun, hb, this]
          · simpa [emitRun, hb] using ih2
          · intro hnone
            simp only [emitRun, hb] at hnone ⊢
            simp [ih3 hnone]
          · intro m hm
            simp only [emitRun, hb] at hm
            obtain ⟨x, hx, hxb⟩ := ih4 m hm
            exact ⟨x, List.mem_cons_of_mem _ hx, hxb⟩
      | throws msg =>
          refine ⟨?_, ?_, ?_, ?_⟩
          · intro hall
            have := hall l (List.mem_cons_self _ _)
            rw [hb] at this
            cases this
          · simp [emitRun, hb]
          · intro hnone
            simp [emitRun, hb] at hnone
          · intro m hm
            simp only [emitRun, hb, Option.some.injEq] at hm
            exact ⟨l, List.mem_cons_self _ _, by rw [hb, hm]⟩

/-- Witness for C2 (amended): a two-listener bus where nobody throws
delivers to both, in registration order. -/
theorem emitRun_registration_order_witness :
    emitRun [⟨0, .ok⟩, ⟨1, .ok⟩] = ([0, 1], none) :=
  (emitRun_registration_order [⟨0, .ok⟩, ⟨1, .ok⟩]).1 (by decide)

/-! ## C10 — HooksService.stop removes every email:new listener -/

/-- **C10**: `HooksService.stop` calls `removeAllListeners('email:new')` on
the process-wide singleton bus, which removes *every* `email:new`
registration — including ones registered by components other than this
`HooksService` instance — while registrations for other event kinds
survive; the pending batch and flush timer are cleared as well. -/
theorem hooksStop_removes_all_emailNew (st : HooksState)
    (bus : List Registration) :
    (∀ r ∈ (hooksStop st bus).2, r.kind ≠ EventKind.emailNew) ∧
    (∀ r ∈ bus, r.kind = EventKind.emailNew → r ∉ (hooksStop st bus).2) ∧
    (∀ r ∈ bus, r.kind ≠ EventKind.emailNew → r ∈ (hooksStop st bus).2) ∧
    (hooksStop st bus).1.pendingEmails = [] ∧
    (hooksStop st bus).1.batchTimerSet = false := by
  refine ⟨?_, ?_, ?_, rfl, rfl⟩
  · intro r hr
    simp [hooksStop, removeAllListeners, List.mem_filter] at hr
    exact hr.2
  · intro r _ hk
    simp [hooksStop, removeAllListeners, List.mem_filter]
    intro _
    exact hk
  · intro r hr hk
    simp [hooksStop, removeAllListeners, List.mem_filter]
    exact ⟨hr, hk⟩

/-- Witness for C10: an `email:new` listener registered by the watcher (a
different component) is gone after the hooks service stops. -/
theorem hooksStop_removes_all_emailNew_witness :
    Registration.mk "watcher" EventKind.emailNew ∉
      (hooksStop ⟨[], true⟩ [⟨"watcher", EventKind.emailNew⟩]).2 :=
  (hooksStop_removes_all_emailNew ⟨[], true⟩
      [⟨"watcher", EventKind.emailNew⟩]).2.1
    ⟨"watcher", EventKind.emailNew⟩ (by simp) rfl

/-! ## C3 — lastSeenUid never decreases and tracks the max fetched uid -/

lemma handleNewEmails_ge (n : Nat) (r : Except Unit (List FetchedMsg)) :
    n ≤ (handleNewEmails n r).1 := by
  cases r with
  | error e => exact Nat.le_refl n
  | ok msgs =>
      simp only [handleNewEmails]
      split <;> omega

lemma init_le_uidFold (N : Nat) (msgs : List FetchedMsg) :
    ∀ init : Nat,
      init ≤ msgs.foldl
        (fun acc m => if N < m.uid then max acc m.uid else acc) init := by
  induction msgs with
  | nil => intro init; exact Nat.le_refl init
  | cons a rest ih =>
      intro init
      refine Nat.le_trans ?_ (ih _)
      dsimp only
      split
      · exact Nat.le_max_left _ _
      · exact Nat.le_refl init

lemma uid_le_uidFold (N : Nat) (msgs : List FetchedMsg) :
    ∀ init : Nat, ∀ m ∈ msgs, N < m.uid →
      m.uid ≤ msgs.foldl
        (fun acc m => if N < m.uid then max acc m.uid else acc) init := by
  induction msgs with
  | nil => intro init m hm; cases hm
  | cons a rest ih =>
      intro init m hm hN
      rcases List.mem_cons.mp hm with rfl | hm'
      · refine Nat.le_trans ?_ (init_le_uidFold N rest _)
        simp only [if_pos hN]
        exact Nat.le_max_right _ _
      · exact ih _ m hm' hN

lemma uidFold_eq_init_or_mem (N : Nat) (msgs : List FetchedMsg) :
    ∀ init : Nat,
      msgs.foldl (fun acc m => if N < m.uid then max acc m.uid else acc) init
          = init ∨
      ∃ m ∈ msgs, N < m.uid ∧
        msgs.foldl (fun acc m => if N < m.uid then max acc m.uid else acc) init
          = m.uid := by
  induction msgs with
  | nil => intro init; exact Or.inl rfl
  | cons a rest ih =>
      intro init
      by_cases hN : N < a.uid
      · rcases Nat.le_total init a.uid with h' | h'
        · rcases ih (max init a.uid) with h | ⟨m, hm, hNm, heq⟩
          · refine Or.inr ⟨a, List.mem_cons_self a rest, hN, ?_⟩
            rw [Nat.max_eq_right h'] at h
            simp only [List.foldl_cons, if_pos hN, Nat.max_eq_right h']
            exact h
          · exact Or.inr ⟨m, List.mem_cons_of_mem a hm, hNm, by
              simp only [List.foldl_cons, if_pos hN, heq]⟩
        · rcases ih (max init a.uid) with h | ⟨m, hm, hNm, heq⟩
          · refine Or.inl ?_
            rw [Nat.max_eq_left h'] at h
            simp only [List.foldl_cons, if_pos hN, Nat.max_eq_left h']
            exact h
          · exact Or.inr ⟨m, List.mem_cons_of_mem a hm, hNm, by
              simp only [List.foldl_cons, if_pos hN, heq]⟩
      · rcases ih init with h | ⟨m, hm, hNm, heq⟩
        · exact Or.inl (by simp only [List.foldl_cons, if_neg hN, h])
        · exact Or.inr ⟨m, List.mem_cons_of_mem a hm, hNm, by
            simp only [List.foldl_cons, if_neg hN, heq]⟩

/-- **C3**: after `handleNewEmails` runs for a target with `lastSeenUid = N`,
the new `lastSeenUid` is at least `N`; a fetch failure leaves it exactly
`N`; every summary built (a fetched message with uid > N) has uid at most
the new value, and when at least one such summary exists the new value *is*
the uid of one of them — i.e. the maximum uid among the fetched summaries;
and any sequence of handled push signals keeps `lastSeenUid` at or above
`N`. -/
theorem handleNewEmails_lastSeen_max (N : Nat) (msgs : List FetchedMsg) :
    N ≤ (handleNewEmails N (Except.ok msgs)).1 ∧
    (handleNewEmails N (Except.error ())).1 = N ∧
    (∀ m ∈ msgs, N < m.uid → m.uid ≤ (handleNewEmails N (Except.ok msgs)).1) ∧
    ((∃ m ∈ msgs, N < m.uid) →
      ∃ m ∈ msgs, N < m.uid ∧ (handleNewEmails N (Except.ok msgs)).1 = m.uid) ∧
    (∀ rs : List (Except Unit (List FetchedMsg)),
      N ≤ rs.foldl (fun n r => (handleNewEmails n r).1) N) := by
  have hfst : (handleNewEmails N (Except.ok msgs)).1 =
      (if N < msgs.foldl
          (fun acc m => if N < m.uid then max acc m.uid else acc) N
       then msgs.foldl
          (fun acc m => if N < m.uid then max acc m.uid else acc) N
       else N) := rfl
  refine ⟨handleNewEmails_ge N _, rfl, ?_, ?_, ?_⟩
  · intro m hm hN
    rw [hfst]
    have h := uid_le_uidFold N msgs N m hm hN
    split
    · exact h
    · omega
  · rintro ⟨m₀, hm₀, hN₀⟩
    have hub := uid_le_uidFold N msgs N m₀ hm₀ hN₀
    have hlt : N < msgs.foldl
        (fun acc m => if N < m.uid then max acc m.uid else acc) N :=
      Nat.lt_of_lt_of_le hN₀ hub
    rcases uidFold_eq_init_or_mem N msgs N with h | ⟨m, hm, hNm, heq⟩
    · omega
    · exact ⟨m, hm, hNm, by rw [hfst, if_pos hlt, heq]⟩
  · intro rs
    suffices h : ∀ (rs : List (Except Unit (List FetchedMsg))) (n : Nat),
        n ≤ rs.foldl (fun n r => (handleNewEmails n r).1) n by
      exact h rs N
    intro rs
    induction rs with
    | nil => intro n; exact Nat.le_refl n
    | cons r rest ih =>
        intro n
        calc n ≤ (handleNewEmails n r).1 := handleNewEmails_ge n r
        _ ≤ rest.foldl (fun n r => (handleNewEmails n r).1)
              (handleNewEmails n r).1 := by
              have := ih (handleNewEmails n r).1
              simpa using this

/-- Witness for C3: with `lastSeenUid = 5` and a fetch returning uids 7 and
3, the new `lastSeenUid` is at least 5 (it is in fact 7). -/
theorem handleNewEmails_lastSeen_max_witness :
    5 ≤ (handleNewEmails 5 (Except.ok [⟨7⟩, ⟨3⟩])).1 :=
  (handleNewEmails_lastSeen_max 5 [⟨7⟩, ⟨3⟩]).1

/-! ## C4 — reconnect backoff -/

lemma failCycle_snd (st : IdleState) (h : st.stopped = false) :
    (failCycle st).2 = reconnectTimerFire st := by
  simp [failCycle, connectIdleStep, reconnectTimerFire, h]

lemma delaysFrom_shift (st : IdleState) (h : st.stopped = false) (n : Nat) :
    delaysFrom st (n + 1) = delaysFrom (reconnectTimerFire st) n := by
  show delaysFrom (failCycle st).2 n = _
  rw [failCycle_snd st h]

lemma delaysFrom_succ_eq (st : IdleState) (h : st.stopped = false) (n : Nat) :
    delaysFrom st (n + 1) = min (delaysFrom st n * 2) MAX_BACKOFF_MS := by
  induction n generalizing st with
  | zero => rw [delaysFrom_shift st h]; rfl
  | succ k ih =>
      rw [delaysFrom_shift st h, ih (reconnectTimerFire st) h,
        ← delaysFrom_shift st h]

lemma delaysFrom_le_max (st : IdleState) (h : st.stopped = false)
    (hb : st.backoffMs ≤ MAX_BACKOFF_MS) (n : Nat) :
    delaysFrom st n ≤ MAX_BACKOFF_MS := by
  cases n with
  | zero => exact hb
  | succ k => rw [delaysFrom_succ_eq st h k]; exact Nat.min_le_right _ _

/-- **C4**: starting from a freshly reset backoff (1000 ms — the state after
any successful connect, and the initial state), the sequence of reconnect
delays across a run of consecutive connection failures starts at 1000 ms, is
monotonically non-decreasing, never exceeds 60000 ms, doubles after each
consecutive failure up to that cap; and one successful connect of *any*
non-stopped target — whatever elevated backoff its failures have
accumulated — resets the stored backoff to 1000 ms. -/
theorem scheduleReconnect_backoff_monotone (st : IdleState)
    (hs : st.stopped = false) (hb : st.backoffMs = INITIAL_BACKOFF_MS) :
    delaysFrom st 0 = INITIAL_BACKOFF_MS ∧
    (∀ n, delaysFrom st n ≤ delaysFrom st (n + 1)) ∧
    (∀ n, delaysFrom st n ≤ MAX_BACKOFF_MS) ∧
    (∀ n, delaysFrom st (n + 1) = min (delaysFrom st n * 2) MAX_BACKOFF_MS) ∧
    (∀ (st2 : IdleState) (uidNext : Option Nat), st2.stopped = false →
      (connectIdleStep st2 (ConnectOutcome.success uidNext)).backoffMs =
        INITIAL_BACKOFF_MS) := by
  have hble : st.backoffMs ≤ MAX_BACKOFF_MS := by
    rw [hb]; decide
  refine ⟨hb, ?_, delaysFrom_le_max st hs hble, delaysFrom_succ_eq st hs, ?_⟩
  · intro n
    rw [delaysFrom_succ_eq st hs n]
    have hle := delaysFrom_le_max st hs hble n
    exact Nat.le_min.mpr ⟨by omega, hle⟩
  · intro st2 uidNext hs2
    simp [connectIdleStep, hs2]

/-- Witness for C4: the delay sequence starts at 1000 ms in the state every
target starts in, and a target whose consecutive failures have driven its
backoff up to 32000 ms is reset to 1000 ms by one successful connect. -/
theorem scheduleReconnect_backoff_monotone_witness :
    delaysFrom ⟨false, 0, 1000, false⟩ 0 = INITIAL_BACKOFF_MS ∧
    (connectIdleStep ⟨false, 7, 32000, false⟩
      (ConnectOutcome.success (some 9))).backoffMs = INITIAL_BACKOFF_MS :=
  ⟨(scheduleReconnect_backoff_monotone ⟨false, 0, 1000, false⟩ rfl rfl).1,
   (scheduleReconnect_backoff_monotone ⟨false, 0, 1000, false⟩ rfl rfl).2.2.2.2
     ⟨false, 7, 32000, false⟩ (some 9) rfl⟩

/-! ## C7 — reconnect re-derives lastSeenUid from the store's uidNext -/

/-- **C7**: on every successful connect of a non-stopped target — initial or
after reconnection — `lastSeenUid` is set to the mailbox's reported
`uidNext - 1`, independently of whatever `lastSeenUid` held before (in
particular it is not reset to zero unless the store itself reports
`uidNext ≤ 1`, i.e. an empty mailbox). -/
theorem connectIdle_rederives_lastSeen (st : IdleState) (n : Nat)
    (h : st.stopped = false) :
    (connectIdleStep st (ConnectOutcome.success (some n))).lastSeenUid = n - 1 ∧
    (1 ≤ n →
      ((connectIdleStep st (ConnectOutcome.success (some n))).lastSeenUid = 0 ↔
        n = 1)) ∧
    (∀ m, (connectIdleStep { st with lastSeenUid := m }
        (ConnectOutcome.success (some n))).lastSeenUid = n - 1) := by
  refine ⟨by simp [connectIdleStep, h], ?_, ?_⟩
  · intro hn
    simp [connectIdleStep, h]
    omega
  · intro m
    simp [connectIdleStep, h]

/-- Witness for C7: a target that was at `lastSeenUid = 42` reconnects to a
store reporting `uidNext = 5` and ends at `lastSeenUid = 4`. -/
theorem connectIdle_rederives_lastSeen_witness :
    (connectIdleStep ⟨false, 42, 1000, false⟩
      (ConnectOutcome.success (some 5))).lastSeenUid = 5 - 1 :=
  (connectIdle_rederives_lastSeen ⟨false, 42, 1000, false⟩ 5 rfl).1

/-! ## C8 — rate-limited triage falls back to plain notification -/

/-- **C8**: when a batch is flushed in triage mode while the per-window
AI-call counter is exhausted (`rateCounter ≥ 10`), the counter is not
incremented, the actions are exactly the fallback warning log followed by
one plain-notification log line per message in the batch, and no label
mutation, flag mutation or AI call occurs. -/
theorem triageBatch_rate_limited (cfg : HooksConfig) (c : Nat)
    (emails : List BatchEmail) (ai : Except String (Option Json))
    (h : MAX_SAMPLING_PER_MIN ≤ c) :
    (triageBatch cfg c emails ai).1 = c ∧
    (triageBatch cfg c emails ai).2 =
      HookAction.log "warning"
          "Sampling rate limit reached — falling back to notify" ::
        notifyBatch emails ∧
    (notifyBatch emails).length = emails.length ∧
    (∀ a ∈ notifyBatch emails, a.isLog = true) ∧
    (∀ a ∈ (triageBatch cfg c emails ai).2,
      a.isMutation = false ∧ a ≠ HookAction.aiCall) := by
  have ht : triageBatch cfg c emails ai =
      (c, HookAction.log "warning"
          "Sampling rate limit reached — falling back to notify" ::
        notifyBatch emails) := by
    simp [triageBatch, h]
  refine ⟨by rw [ht], by rw [ht], by simp [notifyBatch], ?_, ?_⟩
  · intro a ha
    simp only [notifyBatch, List.mem_map] at ha
    obtain ⟨e, _, rfl⟩ := ha
    rfl
  · intro a ha
    rw [ht] at ha
    rcases List.mem_cons.mp ha with rfl | ha'
    · exact ⟨rfl, by simp⟩
    · simp only [notifyBatch, List.mem_map] at ha'
      obtain ⟨e, _, rfl⟩ := ha'
      exact ⟨rfl, by simp⟩

/-- Witness for C8: a one-message batch flushed with the counter already at
the cap leaves the counter at 10. -/
theorem triageBatch_rate_limited_witness :
    MAX_SAMPLING_PER_MIN ≤ 10 ∧
    (triageBatch ⟨HookMode.triage, 5, true, true⟩ 10
      [⟨"work", "INBOX", ⟨"1", "hello", "a@b.example"⟩⟩]
      (Except.error "limit")).1 = 10 :=
  ⟨by decide,
   (triageBatch_rate_limited ⟨HookMode.triage, 5, true, true⟩ 10
      [⟨"work", "INBOX", ⟨"1", "hello", "a@b.example"⟩⟩]
      (Except.error "limit") (by decide)).1⟩

/-! ## C5 — flush clears the batch before asynchronous work -/

lemma foldl_onNewEmail_pending (evs : List NewEmailEvent) (st : HooksState) :
    (evs.foldl onNewEmail st).pendingEmails =
      st.pendingEmails ++ (evs.map NewEmailEvent.toBatchEmails).flatten := by
  induction evs generalizing st with
  | nil => simp
  | cons e rest ih => simp [onNewEmail, ih, List.append_assoc]

lemma flushBatch_fst (cfg : HooksConfig) (s : Bool) (rc : Nat)
    (ai : Except String (Option Json)) (st : HooksState) :
    (flushBatch cfg s rc ai st).1 = ⟨[], false⟩ := by
  unfold flushBatch flushTake
  dsimp only
  split
  · rfl
  · split <;> rfl

/-- **C5**: `flushBatch` clears the pending batch and the flush timer in its
synchronous prefix, before any asynchronous step runs; the batch it
processes is exactly the snapshot of what was pending; every email event
arriving during the flush's asynchronous work lands in the next batch — the
current flush's batch plus the next flush's batch is exactly the
previously-pending messages plus the arrivals, so no message is lost and
none is processed twice; and a flush of an empty batch performs no work. -/
theorem flushBatch_atomic_swap (cfg : HooksConfig) (samplingSupported : Bool)
    (rc : Nat) (ai : Except String (Option Json)) (st : HooksState)
    (evs : List NewEmailEvent) :
    (flushBatch cfg samplingSupported rc ai st).1.pendingEmails = [] ∧
    (flushBatch cfg samplingSupported rc ai st).1.batchTimerSet = false ∧
    (flushTake st).2 = st.pendingEmails ∧
    (flushTake (evs.foldl onNewEmail
        (flushBatch cfg samplingSupported rc ai st).1)).2 =
      (evs.map NewEmailEvent.toBatchEmails).flatten ∧
    (flushTake st).2 ++
        (flushTake (evs.foldl onNewEmail
          (flushBatch cfg samplingSupported rc ai st).1)).2 =
      st.pendingEmails ++ (evs.map NewEmailEvent.toBatchEmails).flatten ∧
    (∀ t rc2 ai2, (flushBatch cfg samplingSupported rc2 ai2 ⟨[], t⟩).2.2 = []) := by
  have h1 := flushBatch_fst cfg samplingSupported rc ai st
  have h2 : (flushTake (evs.foldl onNewEmail
      (flushBatch cfg samplingSupported rc ai st).1)).2 =
      (evs.map NewEmailEvent.toBatchEmails).flatten := by
    rw [h1]
    show (evs.foldl onNewEmail ⟨[], false⟩).pendingEmails = _
    rw [foldl_onNewEmail_pending]
    rfl
  refine ⟨by rw [h1], by rw [h1], rfl, h2, by rw [h2]; rfl, ?_⟩
  intro t rc2 ai2
  rfl

/-! ## C6 — desktop channel gating in alert -/

lemma notifierAlert_desktopSent (cfg : AlertsConfig) (count : Nat)
    (payload : AlertPayload) (force : Bool) :
    (notifierAlert cfg count payload force).1.desktopSent =
      (cfg.desktop &&
        (decide (URGENCY_ORDER cfg.urgencyThreshold ≤
          URGENCY_ORDER payload.priority) || force) &&
        decide (count < MAX_DESKTOP_PER_MIN)) := by
  unfold notifierAlert sendDesktopNotification
  dsimp only
  split
  · rename_i hcond
    split
    · rename_i hcnt
      simp only [hcond]
      simp
      omega
    · rename_i hcnt
      simp only [hcond]
      simp
      omega
  · rename_i hcond
    simp only [Bool.not_eq_true] at hcond
    simp [hcond]

/-- **C6**: the desktop channel actually sends if and only if desktop
notifications are enabled, and the payload's priority meets the configured
urgency threshold under the strict total order urgent > high > normal > low
or the caller forces desktop, and fewer than 5 desktop sends have occurred
in the current 60-second window; and `URGENCY_ORDER` is indeed strictly
increasing along low < normal < high < urgent. -/
theorem notifierAlert_desktop_iff (cfg : AlertsConfig) (count : Nat)
    (payload : AlertPayload) (force : Bool) :
    ((notifierAlert cfg count payload force).1.desktopSent = true ↔
      (cfg.desktop = true ∧
       (URGENCY_ORDER cfg.urgencyThreshold ≤ URGENCY_ORDER payload.priority ∨
        force = true) ∧
       count < MAX_DESKTOP_PER_MIN)) ∧
    URGENCY_ORDER Priority.low < URGENCY_ORDER Priority.normal ∧
    URGENCY_ORDER Priority.normal < URGENCY_ORDER Priority.high ∧
    URGENCY_ORDER Priority.high < URGENCY_ORDER Priority.urgent := by
  refine ⟨?_, by decide, by decide, by decide⟩
  rw [notifierAlert_desktopSent cfg count payload force]
  simp [Bool.and_eq_true, Bool.or_eq_true, decide_eq_true_eq, and_assoc]

/-- Witness for C6, matching the spec's scenario: priority `high` against
threshold `high` with desktop enabled and a fresh counter dispatches the
desktop channel. -/
theorem notifierAlert_desktop_iff_witness :
    (notifierAlert ⟨true, false, Priority.high, none, []⟩ 0
      ⟨"work", none, "a@b.example", "subj", Priority.high, none, none⟩
      false).1.desktopSent = true :=
  ((notifierAlert_desktop_iff ⟨true, false, Priority.high, none, []⟩ 0
      ⟨"work", none, "a@b.example", "subj", Priority.high, none, none⟩
      false).1).mpr ⟨rfl, Or.inl (by decide), by decide⟩

end EmailMcp
